import Mathlib

/-!
# A verification development for `TileStache/PixelEffects.py`

This file gives a shallow embedding of the pixel-effect engine in
`src/TileStache/PixelEffects.py` and proves (or refutes) the frozen claims
about it.

Modelling conventions:

* A PIL image is an `Img`: width, height, color mode, and a total pixel
  function returning the list of channel values at each coordinate.
  Channel values are `Nat` (0–255 in well-formed buffers, captured by
  `Img.Valid`).
* The repository targets Python 2, so `width/SHREDS` and
  `int(width/reduction)` are both truncating integer division; both are
  embedded as `Nat` division.
* PIL is an external library.  Operations whose pixel-level behavior the
  claims do not inspect (`Image.convert`, `ImageFilter.GaussianBlur`) are
  taken as parameters, with their PIL contract (result mode, preserved
  size, well-formedness) as hypotheses where a theorem needs it.
  Operations the claims do inspect (`crop`, `paste`, `putalpha`,
  `Image.new`, `Image.blend`, nearest-neighbour `resize`,
  `ImageOps.solarize`, `split`, `merge`) are modelled concretely from
  their documented behavior.
* Randomness (`randint`, `shuffle`) is passed in explicitly: each draw is
  an argument, and the shuffled sequence is an argument constrained to be
  a permutation where a theorem needs it.
-/

namespace PixelEffects

/-- PIL color modes used by the engine (spec §3: 1-bit, luminance,
luminance+alpha, RGB, RGBA, CMYK). `one` is PIL mode `"1"`. -/
inductive Mode where
  | one
  | L
  | LA
  | RGB
  | RGBA
  | CMYK
  deriving DecidableEq, Repr

/-- Number of bands (channels) of a mode. -/
def Mode.numBands : Mode → Nat
  | .one => 1
  | .L => 1
  | .LA => 2
  | .RGB => 3
  | .RGBA => 4
  | .CMYK => 4

/-- `mode.index("A")` from `put_original_alpha`: the position of the
letter `A` in the PIL mode string, `none` when the string has no `A`
(in Python, a `ValueError`). -/
def Mode.alphaIdx : Mode → Option Nat
  | .LA => some 1
  | .RGBA => some 3
  | _ => none

/-- The mode PIL `Image.putalpha` promotes a non-alpha image to:
the base mode of the image with an `A` band appended (`L`-family goes to
`LA`, `RGB`-family and `CMYK` go to `RGBA`).  Alpha modes stay put. -/
def Mode.promoteAlpha : Mode → Mode
  | .one => .LA
  | .L => .LA
  | .LA => .LA
  | .RGB => .RGBA
  | .RGBA => .RGBA
  | .CMYK => .RGBA

/-- A PIL image: a pixel grid with a color mode.  `px` is total; only the
values at coordinates below `width`/`height` are meaningful. -/
structure Img where
  width : Nat
  height : Nat
  mode : Mode
  px : Nat → Nat → List Nat

/-- Well-formed buffer: every in-range pixel has exactly one value per
band, each in 0–255.  (Mode `"1"` pixels are stored as 0/255, as in
the PIL 8-bit storage for 1-bit images.) -/
def Img.Valid (img : Img) : Prop :=
  ∀ x y, x < img.width → y < img.height →
    (img.px x y).length = img.mode.numBands ∧ ∀ v ∈ img.px x y, v ≤ 255

/-- Band `i` of an image, as `image.split()[i]`: channel `i` of every
pixel. -/
def Img.band (img : Img) (i : Nat) : Nat → Nat → Nat :=
  fun x y => (img.px x y).getD i 0

/-- The all-zero pixel of a mode (the PIL fill for `Image.new` with no
color argument). -/
def Mode.zeroPx (m : Mode) : List Nat :=
  List.replicate m.numBands 0

/-- Model of `PIL.Image.new(mode, size)`: a blank (all-zero) image. -/
def Image.new (m : Mode) (w h : Nat) : Img :=
  { width := w, height := h, mode := m, px := fun _ _ => m.zeroPx }

/-- Model of `PIL.Image.putalpha(alpha)`: if the mode already has an
alpha band (`LA`/`RGBA`), replace that band; otherwise promote the image
in place to its base mode plus `A` (the PIL `setmode`/`convert` path),
carrying the existing bands over and installing `alpha` as the new last
band. -/
def Img.putalpha (img : Img) (alpha : Nat → Nat → Nat) : Img :=
  match img.mode.alphaIdx with
  | some i =>
    { img with px := fun x y => (img.px x y).set i (alpha x y) }
  | none =>
    let m := img.mode.promoteAlpha
    { img with
      mode := m
      px := fun x y => (img.px x y).take (m.numBands - 1) ++ [alpha x y] }

/-- `put_original_alpha(original_image, new_image)` from
`PixelEffects.py`: put the alpha channel of the original image (if any)
in the new image.  `original_image.mode.index("A")` raising `ValueError`
is the `none` branch, where the exception is swallowed and `new_image`
is returned untouched. -/
def put_original_alpha (original_image new_image : Img) : Img :=
  match original_image.mode.alphaIdx with
  | none => new_image
  | some alpha_idx => new_image.putalpha (original_image.band alpha_idx)

/-- Model of `Image.crop((x1, y1, x2, y2))`: a `(x2-x1) × (y2-y1)` image
reading from the source region, zero outside the source bounds. -/
def Img.crop (img : Img) (x1 y1 x2 y2 : Nat) : Img :=
  { width := x2 - x1
    height := y2 - y1
    mode := img.mode
    px := fun x y =>
      if x1 + x < img.width ∧ y1 + y < img.height then img.px (x1 + x) (y1 + y)
      else img.mode.zeroPx }

/-- Model of `Image.paste(region, (ox, oy))` on `dst` (modes already
matching): pixels covered by the pasted region come from it, everything
else keeps the value of the destination.  PIL clips the region to the
destination. -/
def Img.paste (dst region : Img) (ox oy : Nat) : Img :=
  { dst with px := fun x y =>
      if ox ≤ x ∧ x < ox + region.width ∧ oy ≤ y ∧ y < oy + region.height ∧
          x < dst.width ∧ y < dst.height
      then region.px (x - ox) (y - oy)
      else dst.px x y }

/-- `Image.paste` converts the pasted image to the mode of the destination
when the modes differ. -/
def Img.pasteConv (convert : Mode → Img → Img) (dst region : Img)
    (ox oy : Nat) : Img :=
  dst.paste (if region.mode = dst.mode then region else convert dst.mode region) ox oy

/-- Model of PIL nearest-neighbour `resize` to `(w, h)`: each output
pixel samples the source at the pixel-center preimage,
`floor((x + 1/2) · srcW / w)`. -/
def resizeNearest (img : Img) (w h : Nat) : Img :=
  { width := w
    height := h
    mode := img.mode
    px := fun x y =>
      img.px ((2 * x + 1) * img.width / (2 * w)) ((2 * y + 1) * img.height / (2 * h)) }

/-- Clip an integer to the byte range 0–255 (PIL stores 8-bit bands). -/
def clampByte (z : ℤ) : Nat :=
  (max 0 (min z 255)).toNat

/-- One channel of `Image.blend(im1, im2, alpha)`:
`im1 + alpha * (im2 - im1)`, rounded and clipped to a byte. -/
def blendChannel (α : ℚ) (a b : Nat) : Nat :=
  clampByte (round ((a : ℚ) + α * ((b : ℚ) - (a : ℚ))))

/-- Model of `PIL.Image.blend(im1, im2, alpha)`: channelwise
interpolation; the result has the size and mode (PIL requires the
two images to agree on both). -/
def Image.blend (im1 im2 : Img) (α : ℚ) : Img :=
  { im1 with px := fun x y =>
      List.zipWith (blendChannel α) (im1.px x y) (im2.px x y) }

/-- Model of `image.split()`: one single-band `L` image per band. -/
def Img.split (img : Img) : List Img :=
  (List.range img.mode.numBands).map fun i =>
    { width := img.width, height := img.height, mode := Mode.L
      px := fun x y => [(img.px x y).getD i 0] }

/-- Model of `Image.merge(mode, bands)`: recombine single-band images
into one image of the given mode; size taken from the first band. -/
def Image.merge (m : Mode) (bands : List Img) : Img :=
  { width := (bands.headD (Image.new m 0 0)).width
    height := (bands.headD (Image.new m 0 0)).height
    mode := m
    px := fun x y => bands.map fun b => (b.px x y).getD 0 0 }

/-- The lookup table of `PIL.ImageOps.solarize(image, threshold)`:
`lut[i] = i` when `i < threshold`, else `255 - i`.  The threshold is an
integer used verbatim. -/
def solarizeLut (threshold : ℤ) (i : Nat) : Nat :=
  if (i : ℤ) < threshold then i else 255 - i

/-- Model of `PIL.ImageOps.solarize(image, threshold)` (the code links
to the Pillow implementation): apply `solarizeLut` to every channel of
every pixel. -/
def ImageOps.solarize (img : Img) (threshold : ℤ) : Img :=
  { img with px := fun x y => (img.px x y).map (solarizeLut threshold) }

/-! ## The effects

Each `apply_effect` is transcribed from its class in `PixelEffects.py`.
`convert` is the PIL `Image.convert`, passed in as the external operation
`convert targetMode image`; `gaussianBlur` likewise stands for
`image.filter(ImageFilter.GaussianBlur(radius))`. -/

/-- `Blackwhite.apply_effect`:
`new_image = image.convert("1").convert(image.mode)` followed by
`put_original_alpha(image, new_image)`. -/
def Blackwhite.applyEffect (convert : Mode → Img → Img) (image : Img) : Img :=
  put_original_alpha image (convert image.mode (convert Mode.one image))

/-- `Greyscale.apply_effect`: `image.convert("LA").convert(image.mode)`. -/
def Greyscale.applyEffect (convert : Mode → Img → Img) (image : Img) : Img :=
  convert image.mode (convert Mode.LA image)

/-- `Desaturate.__init__`: `self.factor = min(max(factor, 0.0), 1.0)`. -/
def Desaturate.initFactor (factor : ℚ) : ℚ :=
  min (max factor 0) 1

/-- Default `factor` of `Desaturate`. -/
def Desaturate.defaultFactor : ℚ := 0.85

/-- `Desaturate.apply_effect`:
`avg = image.convert("LA").convert(image.mode)` then
`Image.blend(image, avg, self.factor)`. -/
def Desaturate.applyEffect (convert : Mode → Img → Img) (factor : ℚ)
    (image : Img) : Img :=
  Image.blend image (convert image.mode (convert Mode.LA image)) factor

/-- `Pixelate.__init__`: `self.reduction = max(reduction, 1)`. -/
def Pixelate.initReduction (reduction : Nat) : Nat :=
  max reduction 1

/-- Default `reduction` of `Pixelate`. -/
def Pixelate.defaultReduction : Nat := 5

/-- The `tmp_size` of `Pixelate.apply_effect`:
`(int(size[0] / reduction), int(size[1] / reduction))` — truncating
integer division on a Python 2 int. -/
def Pixelate.tmpSize (w h reduction : Nat) : Nat × Nat :=
  (w / reduction, h / reduction)

/-- `Pixelate.apply_effect`: downscale to `tmp_size` with
`Image.NEAREST`, then back up to the original size. -/
def Pixelate.applyEffect (reduction : Nat) (image : Img) : Img :=
  let tmp := Pixelate.tmpSize image.width image.height reduction
  let pixelated := resizeNearest image tmp.1 tmp.2
  resizeNearest pixelated image.width image.height

/-- `Halftone.apply_effect`: threshold each band of the CMYK conversion
to 1-bit and back to `L`, merge as CMYK, convert back to the original
mode, then `put_original_alpha`. -/
def Halftone.applyEffect (convert : Mode → Img → Img) (image : Img) : Img :=
  let cmyk := (convert Mode.CMYK image).split.map fun band =>
    convert Mode.L (convert Mode.one band)
  let new_image := convert image.mode (Image.merge Mode.CMYK cmyk)
  put_original_alpha image new_image

/-- `Blur.__init__`: `self.radius = max(radius, 0)`. -/
def Blur.initRadius (radius : ℚ) : ℚ :=
  max radius 0

/-- Default `radius` of `Blur`. -/
def Blur.defaultRadius : ℚ := 5

/-- `Blur.apply_effect`:
`image.filter(ImageFilter.GaussianBlur(self.radius))`. -/
def Blur.applyEffect (gaussianBlur : ℚ → Img → Img) (radius : ℚ)
    (image : Img) : Img :=
  gaussianBlur radius image

/-- `Solarize.__init__`: `self.threshold = threshold`, verbatim. -/
def Solarize.initThreshold (threshold : ℤ) : ℤ :=
  threshold

/-- Default `threshold` of `Solarize`. -/
def Solarize.defaultThreshold : ℤ := 128

/-- `Solarize.apply_effect`: `image = image.convert("RGB")` then
`ImageOps.solarize(image, self.threshold)`. -/
def Solarize.applyEffect (convert : Mode → Img → Img) (threshold : ℤ)
    (image : Img) : Img :=
  ImageOps.solarize (convert Mode.RGB image) threshold

/-- The strip width of `Shredder.apply_effect`:
`shred_width = width/SHREDS` — Python 2 truncating division. -/
def Shredder.shredWidth (width shreds : Nat) : Nat :=
  width / shreds

/-- The paste loop of `Shredder.apply_effect`:
`for i, shred_index in enumerate(sequence)` crop the strip at
`shred_width * shred_index` and paste it at `shred_width * i`.  `i` is
the enumeration counter. -/
def Shredder.pasteLoop (convert : Mode → Img → Img) (image : Img)
    (shred_width : Nat) : Nat → List Nat → Img → Img
  | _, [], shredded => shredded
  | i, shred_index :: rest, shredded =>
    let region := image.crop (shred_width * shred_index) 0
      (shred_width * shred_index + shred_width) image.height
    Shredder.pasteLoop convert image shred_width (i + 1) rest
      (Img.pasteConv convert shredded region (shred_width * i) 0)

/-- `Shredder.apply_effect`.  `r1` is the first `randint(1, 10)` draw,
`shreds` the second (`SHREDS`), and `sequence` the result of shuffling
`range(0, SHREDS)`.  On an even first draw the strips are pasted into a
fresh `Image.new("RGBA", image.size)`; on an odd draw the image is
returned untouched. -/
def Shredder.applyEffect (convert : Mode → Img → Img) (r1 shreds : Nat)
    (sequence : List Nat) (image : Img) : Img :=
  if r1 % 2 = 0 then
    let shredded := Image.new Mode.RGBA image.width image.height
    let shred_width := Shredder.shredWidth image.width shreds
    Shredder.pasteLoop convert image shred_width 0 sequence shredded
  else image

/-! ## Exceptions, `PixelEffect.apply`, `Multiball` and the registry -/

/-- The Python exceptions the embedding distinguishes:
`AttributeError` and `TypeError` (the two caught by
`PixelEffect.apply`), `ValueError` (a materializer may raise anything),
and `KeyError` with the missing key (dict lookup in
`Multiball.apply_effect`). -/
inductive PyErr where
  | attributeError
  | typeError
  | valueError
  | keyError (name : String)
  deriving DecidableEq, Repr

/-- The value passed to `PixelEffect.apply`: either a plain image, or a
`Providers.Verbatim`-style wrapper whose zero-argument `image()` method
yields an image or raises some exception. -/
inductive TileValue where
  | buffer (img : Img)
  | wrapped (materialize : Except PyErr Img)

/-- The materialization step of `PixelEffect.apply`:
`try: image = image.image() except (AttributeError, TypeError): pass`.
A plain image has no `image` attribute, so the `AttributeError` is
swallowed and the value kept; a wrapper that materializes yields its
image; a wrapper raising `AttributeError`/`TypeError` is kept as-is;
any other exception propagates out of the `try`. -/
def PixelEffect.materializeStep : TileValue → Except PyErr TileValue
  | .buffer img => .ok (.buffer img)
  | .wrapped (.ok img) => .ok (.buffer img)
  | .wrapped (.error e) =>
    if e = .attributeError ∨ e = .typeError then .ok (.wrapped (.error e))
    else .error e

/-- `PixelEffect.apply(image)`: the materialization step followed by
`self.apply_effect(image)` on whatever value the step left in `image`. -/
def PixelEffect.apply {α : Type} (apply_effect : TileValue → α)
    (image : TileValue) : Except PyErr α :=
  (PixelEffect.materializeStep image).map apply_effect

/-- The `while` loop of `Multiball.apply_effect`: pop
`effect_name = self.effects.pop()` off the END of the list, instantiate
it (`all[effect_name]()`, which may raise `KeyError` or `TypeError`),
flip the coin (`randint(1, 10) % 2 == 0`, the `k`-th draw), and apply
the sub-effect to the working image on an even draw.  Returns the final
working image (or the exception that escaped) together with the final
state of `self.effects`. -/
def Multiball.loop (inst : String → Except PyErr (Img → Img))
    (coin : Nat → Nat) (k : Nat) (effects : List String) (in_image : Img) :
    Except PyErr Img × List String :=
  match h : effects.getLast? with
  | none => (.ok in_image, effects)
  | some effect_name =>
    let rest := effects.dropLast
    match inst effect_name with
    | .error e => (.error e, rest)
    | .ok apply_fn =>
      let mod_image := if coin k % 2 = 0 then apply_fn in_image else in_image
      Multiball.loop inst coin (k + 1) rest mod_image
termination_by effects.length
decreasing_by
  have hne : effects ≠ [] := by
    intro he
    rw [he] at h
    simp at h
  have hpos : 0 < effects.length := List.length_pos.mpr hne
  simp only [List.length_dropLast]
  omega

/-- `Multiball.apply_effect(image)` for an instance whose
`self.effects` currently holds `effects`: run the loop with a fresh
coin stream. -/
def Multiball.applyEffect (inst : String → Except PyErr (Img → Img))
    (coin : Nat → Nat) (effects : List String) (image : Img) :
    Except PyErr Img × List String :=
  Multiball.loop inst coin 0 effects image

/-- Modelled from the spec (§4.11), for comparison with
`Multiball.applyEffect`: process the given names front to back, one
coin flip per name, applying the effect on an even draw; the list is
given to this function already reversed, since the spec says names are
popped from the end of the original list. -/
def Multiball.specChain (inst : String → Except PyErr (Img → Img))
    (coin : Nat → Nat) : Nat → List String → Img → Except PyErr Img
  | _, [], image => .ok image
  | k, name :: rest, image =>
    match inst name with
    | .error e => .error e
    | .ok f =>
      Multiball.specChain inst coin (k + 1) rest
        (if coin k % 2 = 0 then f image else image)

/-- The module-level `all` dict, with each entry bundled with the
zero-argument construction `all[name]()` performed by
`Multiball.apply_effect` and the bound `apply_effect` method:
every class except `Multiball` constructs with its default parameters
(run through its `__init__` clamping), while `Multiball()` raises
`TypeError` because its `__init__` requires the `effects` argument.
The external operations and the random draws a `Shredder` instance
would consume are supplied as arguments. -/
def allRegistry (convert : Mode → Img → Img) (gaussianBlur : ℚ → Img → Img)
    (srand : Nat → Nat) (sseq : List Nat) :
    List (String × Except PyErr (Img → Img)) :=
  [("blackwhite", .ok (Blackwhite.applyEffect convert)),
   ("greyscale", .ok (Greyscale.applyEffect convert)),
   ("desaturate", .ok (Desaturate.applyEffect convert
      (Desaturate.initFactor Desaturate.defaultFactor))),
   ("pixelate", .ok (Pixelate.applyEffect
      (Pixelate.initReduction Pixelate.defaultReduction))),
   ("halftone", .ok (Halftone.applyEffect convert)),
   ("blur", .ok (Blur.applyEffect gaussianBlur
      (Blur.initRadius Blur.defaultRadius))),
   ("solarize", .ok (Solarize.applyEffect convert
      (Solarize.initThreshold Solarize.defaultThreshold))),
   ("shredder", .ok (Shredder.applyEffect convert (srand 0) (srand 1) sseq)),
   ("multiball", .error PyErr.typeError)]

/-- The effect names registered in `all`. -/
def registeredNames : List String :=
  ["blackwhite", "greyscale", "desaturate", "pixelate", "halftone",
   "blur", "solarize", "shredder", "multiball"]

/-- `all[effect_name]()` as run by `Multiball.apply_effect`: a missing
key raises `KeyError(effect_name)`; a present key constructs the class
(raising `TypeError` for `multiball` itself). -/
def registryInstantiate (convert : Mode → Img → Img)
    (gaussianBlur : ℚ → Img → Img) (srand : Nat → Nat) (sseq : List Nat)
    (effect_name : String) : Except PyErr (Img → Img) :=
  match (allRegistry convert gaussianBlur srand sseq).lookup effect_name with
  | some r => r
  | none => .error (.keyError effect_name)

/-! ## Heap model for the in-place-mutation claim -/

/-- Object identity: a reference into a heap of images. -/
abbrev RefId := Nat

/-- A heap assigning an image to every reference. -/
abbrev Heap := RefId → Img

/-- Overwrite the image an existing reference points at. -/
def heapUpdate (h : Heap) (r : RefId) (img : Img) : Heap :=
  fun s => if s = r then img else h s

/-- `put_original_alpha` at the object level: `new_image.putalpha(...)`
mutates the object `new_image` refers to in place, and the function
returns the reference it was given — no fresh object is allocated. -/
def put_original_alpha_ref (h : Heap) (original new_image : RefId) :
    Heap × RefId :=
  match (h original).mode.alphaIdx with
  | none => (h, new_image)
  | some alpha_idx =>
    (heapUpdate h new_image
      ((h new_image).putalpha ((h original).band alpha_idx)), new_image)

/-! ## Concrete instantiations of the external operations

Closed statements (counterexamples and witnesses) need a computable
stand-in for the external PIL operations.  `modelConvert` satisfies the
PIL contract assumed of `Image.convert` (target mode, preserved size,
preserved well-formedness); `modelBlur` satisfies the contract assumed
of Gaussian blur (preserved mode). -/

/-- A concrete stand-in for `Image.convert`: keeps the size, takes the
target mode, and adapts each pixel to the target band count by
truncating or zero-padding its channel list. -/
def modelConvert (m : Mode) (img : Img) : Img :=
  { width := img.width
    height := img.height
    mode := m
    px := fun x y => (img.px x y ++ List.replicate m.numBands 0).take m.numBands }

/-- A concrete stand-in for Gaussian blur: the identity on the image. -/
def modelBlur (_radius : ℚ) (img : Img) : Img := img

theorem modelConvert_mode (m : Mode) (img : Img) : (modelConvert m img).mode = m := rfl

theorem modelConvert_size (m : Mode) (img : Img) :
    (modelConvert m img).width = img.width ∧ (modelConvert m img).height = img.height :=
  ⟨rfl, rfl⟩

theorem modelConvert_valid (m : Mode) (img : Img) (h : img.Valid) :
    (modelConvert m img).Valid := by
  intro x y hx hy
  constructor
  · simp [modelConvert, Mode.numBands]
  · intro v hv
    have hv2 := List.mem_of_mem_take hv
    rcases List.mem_append.mp hv2 with h1 | h2
    · exact (h x y hx hy).2 v h1
    · have := List.eq_of_mem_replicate h2
      omega

/-! ## Claim C4: the materialization step of `PixelEffect.apply` -/

/-- Claim C4 as stated is false: the `try` around `image.image()` only
catches `AttributeError` and `TypeError`, so a wrapper whose
materializer raises `ValueError` makes `PixelEffect.apply` raise rather
than pass the original value through. -/
theorem c4_materialize_counterexample :
    PixelEffect.apply (fun _ => (0 : Nat)) (.wrapped (.error .valueError))
      = .error .valueError := rfl

/-- Claim C4, amended: `PixelEffect.apply` never raises on the
materialization step when the failure is an `AttributeError` or a
`TypeError` — a raw buffer is passed through (its missing `image`
attribute raises a swallowed `AttributeError`), a wrapper that
materializes passes its image on, and a wrapper failing with
`AttributeError`/`TypeError` is passed through as-is; any other
materialization exception propagates. -/
theorem c4_materialize_fallback {α : Type} (apply_effect : TileValue → α)
    (img : Img) (e : PyErr) :
    PixelEffect.apply apply_effect (.buffer img) = .ok (apply_effect (.buffer img)) ∧
    PixelEffect.apply apply_effect (.wrapped (.ok img)) = .ok (apply_effect (.buffer img)) ∧
    ((e = .attributeError ∨ e = .typeError) →
      PixelEffect.apply apply_effect (.wrapped (.error e)) =
        .ok (apply_effect (.wrapped (.error e)))) ∧
    (e ≠ .attributeError → e ≠ .typeError →
      PixelEffect.apply apply_effect (.wrapped (.error e)) = .error e) := by
  refine ⟨rfl, rfl, ?_, ?_⟩
  · rintro (rfl | rfl) <;> rfl
  · intro h1 h2
    have hcond : ¬ (e = PyErr.attributeError ∨ e = PyErr.typeError) := by
      rintro (rfl | rfl) <;> simp_all
    simp [PixelEffect.apply, PixelEffect.materializeStep, hcond, Except.map]

/-- Witness for the amended C4 at concrete inputs. -/
theorem c4_materialize_fallback_witness :
    PixelEffect.apply (fun _ => (7 : Nat)) (.wrapped (.error .attributeError))
      = .ok 7 :=
  (c4_materialize_fallback (fun _ => (7 : Nat)) (Image.new .RGB 1 1)
    .attributeError).2.2.1 (Or.inl rfl)

/-! ## Claim C8: `Solarize` -/

/-- A 1×1 RGB image whose channels all sit exactly at the default
threshold 128. -/
def solarizeEx : Img :=
  { width := 1, height := 1, mode := .RGB, px := fun _ _ => [128, 128, 128] }

/-- Claim C8 as stated is false at the threshold itself: a channel value
equal to the threshold does not exceed it, yet `ImageOps.solarize`
inverts it (the lookup table inverts all values `≥ threshold`):
128 becomes 127 under the default threshold 128. -/
theorem c8_solarize_counterexample :
    solarizeEx.px 0 0 = [128, 128, 128] ∧ ¬ ((128 : ℤ) > 128) ∧
    (Solarize.applyEffect modelConvert (Solarize.initThreshold 128) solarizeEx).px 0 0
      = [127, 127, 127] := by
  refine ⟨rfl, by decide, ?_⟩
  decide

/-- Claim C8, amended: `Solarize` converts to RGB (dropping any alpha
channel), then inverts every channel value at or above the threshold,
leaving values strictly below it unchanged; the threshold defaults to
128 and is used verbatim with no clamping. -/
theorem c8_solarize_threshold (convert : Mode → Img → Img) (threshold : ℤ)
    (img : Img)
    (hmode : ∀ m i, (convert m i).mode = m)
    (hsize : ∀ m i, (convert m i).width = i.width ∧ (convert m i).height = i.height) :
    Solarize.initThreshold threshold = threshold ∧
    Solarize.defaultThreshold = 128 ∧
    (Solarize.applyEffect convert threshold img).mode = Mode.RGB ∧
    (Solarize.applyEffect convert threshold img).mode.alphaIdx = none ∧
    (Solarize.applyEffect convert threshold img).width = img.width ∧
    (Solarize.applyEffect convert threshold img).height = img.height ∧
    (∀ x y, (Solarize.applyEffect convert threshold img).px x y
      = ((convert Mode.RGB img).px x y).map (solarizeLut threshold)) ∧
    (∀ v : Nat, ((v : ℤ) < threshold → solarizeLut threshold v = v) ∧
      (threshold ≤ (v : ℤ) → solarizeLut threshold v = 255 - v)) := by
  have hm : (Solarize.applyEffect convert threshold img).mode = Mode.RGB := by
    simp [Solarize.applyEffect, ImageOps.solarize, hmode]
  refine ⟨rfl, rfl, hm, by rw [hm]; rfl, ?_, ?_, fun x y => rfl, ?_⟩
  · simpa [Solarize.applyEffect, ImageOps.solarize] using (hsize Mode.RGB img).1
  · simpa [Solarize.applyEffect, ImageOps.solarize] using (hsize Mode.RGB img).2
  · intro v
    constructor
    · intro hlt
      simp [solarizeLut, hlt]
    · intro hge
      simp [solarizeLut, not_lt.mpr hge]

/-- Witness for the amended C8: solarizing `solarizeEx` with threshold
130 leaves 128 alone, and with threshold 100 inverts it. -/
theorem c8_solarize_threshold_witness :
    (Solarize.applyEffect modelConvert 130 solarizeEx).px 0 0
      = ((modelConvert Mode.RGB solarizeEx).px 0 0).map (solarizeLut 130) ∧
    solarizeLut 130 128 = 128 ∧ solarizeLut 100 128 = 127 := by
  refine ⟨(c8_solarize_threshold modelConvert 130 solarizeEx modelConvert_mode
    modelConvert_size).2.2.2.2.2.2.1 0 0, ?_, ?_⟩
  · exact ((c8_solarize_threshold modelConvert 130 solarizeEx modelConvert_mode
      modelConvert_size).2.2.2.2.2.2.2 128).1 (by decide)
  · exact ((c8_solarize_threshold modelConvert 100 solarizeEx modelConvert_mode
      modelConvert_size).2.2.2.2.2.2.2 128).2 (by decide)

/-! ## Claim C6: `Pixelate` -/

/-- The nearest-neighbour pixel-center preimage is the identity when the
sizes agree. -/
theorem center_div_self (x w : Nat) (hw : 0 < w) :
    (2 * x + 1) * w / (2 * w) = x := by
  have h1 : (2 * x + 1) * w = w + 2 * w * x := by ring
  rw [h1, Nat.add_mul_div_left _ _ (by omega : 0 < 2 * w),
    Nat.div_eq_of_lt (by omega)]
  omega

/-- A 2×2 RGB test image with distinct pixels. -/
def pixelateEx : Img :=
  { width := 2, height := 2, mode := .RGB
    px := fun x y => [10 * x + y, 20 * x + y, 30 * x + y] }

/-- Claim C6: `Pixelate` with `reduction=1` downscales to the original
size and back, which is the identity on every in-range pixel under
nearest-neighbour resizing; the `reduction` parameter is clamped to a
minimum of 1 (values already at least 1 pass through unchanged), and the
default is 5. -/
theorem c6_pixelate_identity (reduction : Nat) (img : Img) :
    1 ≤ Pixelate.initReduction reduction ∧
    (1 ≤ reduction → Pixelate.initReduction reduction = reduction) ∧
    Pixelate.defaultReduction = 5 ∧
    (Pixelate.applyEffect 1 img).width = img.width ∧
    (Pixelate.applyEffect 1 img).height = img.height ∧
    (Pixelate.applyEffect 1 img).mode = img.mode ∧
    (∀ x y, x < img.width → y < img.height →
      (Pixelate.applyEffect 1 img).px x y = img.px x y) := by
  refine ⟨Nat.le_max_right _ _, fun h => Nat.max_eq_left h, rfl, ?_, ?_, rfl, ?_⟩
  · simp [Pixelate.applyEffect, Pixelate.tmpSize, resizeNearest]
  · simp [Pixelate.applyEffect, Pixelate.tmpSize, resizeNearest]
  · intro x y hx hy
    have hw : 0 < img.width := by omega
    have hh : 0 < img.height := by omega
    simp only [Pixelate.applyEffect, Pixelate.tmpSize, resizeNearest, Nat.div_one]
    rw [center_div_self x img.width hw, center_div_self y img.height hh,
      center_div_self x img.width hw, center_div_self y img.height hh]

/-- Witness for C6: `Pixelate` at reduction 1 is the identity on the
concrete 2×2 image, and the clamping passes 3 through. -/
theorem c6_pixelate_identity_witness :
    Pixelate.initReduction 3 = 3 ∧
    (Pixelate.applyEffect 1 pixelateEx).px 1 1 = [11, 21, 31] := by
  refine ⟨(c6_pixelate_identity 3 pixelateEx).2.1 (by decide), ?_⟩
  exact (c6_pixelate_identity 3 pixelateEx).2.2.2.2.2.2 1 1 (by decide) (by decide)

/-! ## Claim C5: `Desaturate` -/

/-- Blending a channel with factor 0 returns the first channel. -/
theorem blendChannel_zero (a b : Nat) (ha : a ≤ 255) :
    blendChannel 0 a b = a := by
  simp only [blendChannel, zero_mul, add_zero, round_natCast, clampByte]
  omega

/-- Blending a channel with factor 1 returns the second channel. -/
theorem blendChannel_one (a b : Nat) (hb : b ≤ 255) :
    blendChannel 1 a b = b := by
  have h1 : (a : ℚ) + 1 * ((b : ℚ) - (a : ℚ)) = (b : ℚ) := by ring
  simp only [blendChannel, h1, round_natCast, clampByte]
  omega

theorem zipWith_self_left (l1 l2 : List Nat) (h : l1.length = l2.length)
    (hv : ∀ v ∈ l1, v ≤ 255) :
    List.zipWith (blendChannel 0) l1 l2 = l1 := by
  induction l1 generalizing l2 with
  | nil => simp
  | cons a t ih =>
    cases l2 with
    | nil => simp at h
    | cons b t2 =>
      simp only [List.zipWith_cons_cons, List.cons.injEq]
      exact ⟨blendChannel_zero a b (hv a (List.mem_cons_self a t)),
        ih t2 (by simpa using h) (fun v hmem => hv v (List.mem_cons_of_mem a hmem))⟩

theorem zipWith_self_right (l1 l2 : List Nat) (h : l1.length = l2.length)
    (hv : ∀ v ∈ l2, v ≤ 255) :
    List.zipWith (blendChannel 1) l1 l2 = l2 := by
  induction l1 generalizing l2 with
  | nil => cases l2 with
    | nil => simp
    | cons b t2 => simp at h
  | cons a t ih =>
    cases l2 with
    | nil => simp at h
    | cons b t2 =>
      simp only [List.zipWith_cons_cons, List.cons.injEq]
      exact ⟨blendChannel_one a b (hv b (List.mem_cons_self b t2)),
        ih t2 (by simpa using h) (fun v hmem => hv v (List.mem_cons_of_mem b hmem))⟩

/-- Claim C5: `Desaturate` with factor 0 returns the input pixel for
pixel; with factor 1 it returns the luminance+alpha conversion of the
input converted back to the original mode; the factor is clamped to
`[0, 1]` (values already inside pass through unchanged); and the
default factor is 0.85.  `convert` is the external `Image.convert`,
assumed to meet its PIL contract. -/
theorem c5_desaturate_endpoints (convert : Mode → Img → Img) (factor : ℚ)
    (img : Img)
    (hmode : ∀ m i, (convert m i).mode = m)
    (hsize : ∀ m i, (convert m i).width = i.width ∧ (convert m i).height = i.height)
    (hvalid : ∀ m i, i.Valid → (convert m i).Valid)
    (hv : img.Valid) :
    (0 ≤ Desaturate.initFactor factor ∧ Desaturate.initFactor factor ≤ 1) ∧
    (0 ≤ factor → factor ≤ 1 → Desaturate.initFactor factor = factor) ∧
    Desaturate.defaultFactor = 85 / 100 ∧
    (∀ φ, (Desaturate.applyEffect convert φ img).width = img.width ∧
      (Desaturate.applyEffect convert φ img).height = img.height ∧
      (Desaturate.applyEffect convert φ img).mode = img.mode) ∧
    (∀ x y, x < img.width → y < img.height →
      (Desaturate.applyEffect convert 0 img).px x y = img.px x y) ∧
    (∀ x y, x < img.width → y < img.height →
      (Desaturate.applyEffect convert 1 img).px x y
        = (convert img.mode (convert Mode.LA img)).px x y) := by
  have havg : (convert img.mode (convert Mode.LA img)).Valid :=
    hvalid _ _ (hvalid _ _ hv)
  have havgw : (convert img.mode (convert Mode.LA img)).width = img.width := by
    rw [(hsize _ _).1, (hsize _ _).1]
  have havgh : (convert img.mode (convert Mode.LA img)).height = img.height := by
    rw [(hsize _ _).2, (hsize _ _).2]
  have havgm : (convert img.mode (convert Mode.LA img)).mode = img.mode :=
    hmode _ _
  have hlen : ∀ x y, x < img.width → y < img.height →
      (img.px x y).length = ((convert img.mode (convert Mode.LA img)).px x y).length := by
    intro x y hx hy
    have h1 := (hv x y hx hy).1
    have h2 := (havg x y (by rw [havgw]; exact hx) (by rw [havgh]; exact hy)).1
    rw [h1, h2, havgm]
  refine ⟨⟨le_min (le_max_right _ _) zero_le_one, min_le_right _ _⟩, ?_,
    by norm_num [Desaturate.defaultFactor],
    fun φ => ⟨rfl, rfl, rfl⟩, ?_, ?_⟩
  · intro h0 h1
    simp [Desaturate.initFactor, max_eq_left h0, min_eq_left h1]
  · intro x y hx hy
    exact zipWith_self_left _ _ (hlen x y hx hy) (hv x y hx hy).2
  · intro x y hx hy
    exact zipWith_self_right _ _ (hlen x y hx hy)
      ((havg x y (by rw [havgw]; exact hx) (by rw [havgh]; exact hy)).2)

/-- A 1×1 RGB test image. -/
def desatEx : Img :=
  { width := 1, height := 1, mode := .RGB, px := fun _ _ => [10, 20, 30] }

theorem desatEx_valid : desatEx.Valid := by
  intro x y hx hy
  refine ⟨rfl, ?_⟩
  intro v hv
  simp only [desatEx, List.mem_cons, List.not_mem_nil, or_false] at hv
  rcases hv with rfl | rfl | rfl <;> omega

/-- Witness for C5 at a concrete image: factor 0 keeps the pixel, and
the clamp passes 1/2 through unchanged. -/
theorem c5_desaturate_endpoints_witness :
    (Desaturate.applyEffect modelConvert 0 desatEx).px 0 0 = [10, 20, 30] ∧
    Desaturate.initFactor (1 / 2) = 1 / 2 := by
  have h := c5_desaturate_endpoints modelConvert (1 / 2) desatEx modelConvert_mode
    modelConvert_size modelConvert_valid desatEx_valid
  exact ⟨h.2.2.2.2.1 0 0 (by decide) (by decide), h.2.1 (by norm_num) (by norm_num)⟩

/-! ## Claim C7: `put_original_alpha` on arbitrary buffer pairs -/

theorem getD_set_self (l : List Nat) (i v : Nat) (h : i < l.length) :
    (l.set i v).getD i 0 = v := by
  induction l generalizing i with
  | nil => simp at h
  | cons a t ih =>
    cases i with
    | zero => rfl
    | succ n => exact ih n (by simpa using h)

theorem getD_set_other (l : List Nat) (i k v : Nat) (h : k ≠ i) :
    (l.set i v).getD k 0 = l.getD k 0 := by
  induction l generalizing i k with
  | nil => simp
  | cons a t ih =>
    cases i with
    | zero =>
      cases k with
      | zero => exact absurd rfl h
      | succ n => rfl
    | succ m =>
      cases k with
      | zero => rfl
      | succ n => exact ih m n (by omega)

theorem getD_take_lt (l : List Nat) (n k : Nat) (hk : k < n) :
    (l.take n).getD k 0 = l.getD k 0 := by
  induction l generalizing n k with
  | nil => simp
  | cons a t ih =>
    cases n with
    | zero => omega
    | succ m =>
      cases k with
      | zero => rfl
      | succ j => exact ih m j (by omega)

/-- The band index at which `Image.putalpha` installs the alpha: the
last band of the (possibly promoted) mode. -/
def Mode.alphaSlot (m : Mode) : Nat :=
  m.promoteAlpha.numBands - 1

/-- What `Image.putalpha` does to a well-formed buffer: the mode is
promoted to its alpha-carrying form, dimensions are kept, the alpha
band holds the supplied alpha, and every other band is unchanged. -/
theorem putalpha_spec (img : Img) (alpha : Nat → Nat → Nat) (hval : img.Valid) :
    (img.putalpha alpha).mode = img.mode.promoteAlpha ∧
    (img.putalpha alpha).width = img.width ∧
    (img.putalpha alpha).height = img.height ∧
    (img.putalpha alpha).mode.alphaIdx = some img.mode.alphaSlot ∧
    (∀ x y, x < img.width → y < img.height →
      ((img.putalpha alpha).px x y).getD img.mode.alphaSlot 0 = alpha x y) ∧
    (∀ x y, x < img.width → y < img.height →
      ∀ k, k < img.mode.promoteAlpha.numBands → k ≠ img.mode.alphaSlot →
      ((img.putalpha alpha).px x y).getD k 0 = (img.px x y).getD k 0) := by
  rcases img with ⟨w, h, m, px⟩
  have hlen : ∀ x y, x < w → y < h → (px x y).length = m.numBands := by
    intro x y hx hy
    exact (hval x y hx hy).1
  cases m <;>
    simp only [Img.putalpha, Mode.alphaIdx, Mode.promoteAlpha, Mode.alphaSlot,
      Mode.numBands] <;>
    refine ⟨by trivial, by trivial, by trivial, by trivial, ?_, ?_⟩ <;>
    intro x y hx hy
  case one.refine_1 | L.refine_1 | RGB.refine_1 | CMYK.refine_1 =>
    all_goals {
      have hl := hlen x y hx hy
      simp only [Mode.numBands] at hl
      rw [List.getD_append_right, List.length_take]
      · simp [hl]
      · simp [hl] }
  case one.refine_2 | L.refine_2 | RGB.refine_2 | CMYK.refine_2 =>
    all_goals {
      intro k hk hne
      have hl := hlen x y hx hy
      simp only [Mode.numBands] at hl
      rw [List.getD_append, getD_take_lt]
      · omega
      · rw [List.length_take]
        omega }
  case LA.refine_1 =>
    have hl := hlen x y hx hy
    simp only [Mode.numBands] at hl
    exact getD_set_self _ _ _ (by omega)
  case LA.refine_2 =>
    intro k hk hne
    exact getD_set_other _ _ _ _ hne
  case RGBA.refine_1 =>
    have hl := hlen x y hx hy
    simp only [Mode.numBands] at hl
    exact getD_set_self _ _ _ (by omega)
  case RGBA.refine_2 =>
    intro k hk hne
    exact getD_set_other _ _ _ _ hne

/-- Claim C7: when the original has no alpha band, `put_original_alpha`
returns the derived buffer unchanged with no error; when it has one,
the result is the derived buffer with its alpha band set to the
original's alpha band (promoting the derived mode to its
alpha-carrying form when needed) and every non-alpha band of the
result equal to the corresponding band of the derived buffer. -/
theorem c7_put_original_alpha (original derived : Img) (hval : derived.Valid) :
    (original.mode.alphaIdx = none → put_original_alpha original derived = derived) ∧
    (∀ i, original.mode.alphaIdx = some i →
      (put_original_alpha original derived).mode = derived.mode.promoteAlpha ∧
      (put_original_alpha original derived).width = derived.width ∧
      (put_original_alpha original derived).height = derived.height ∧
      (put_original_alpha original derived).mode.alphaIdx
        = some derived.mode.alphaSlot ∧
      (∀ x y, x < derived.width → y < derived.height →
        ((put_original_alpha original derived).px x y).getD derived.mode.alphaSlot 0
          = (original.px x y).getD i 0) ∧
      (∀ x y, x < derived.width → y < derived.height →
        ∀ k, k < derived.mode.promoteAlpha.numBands → k ≠ derived.mode.alphaSlot →
        ((put_original_alpha original derived).px x y).getD k 0
          = (derived.px x y).getD k 0)) := by
  constructor
  · intro hnone
    simp [put_original_alpha, hnone]
  · intro i hi
    simp only [put_original_alpha, hi]
    exact putalpha_spec derived (original.band i) hval

/-- A 1×1 LA original with alpha 77, and a 1×1 RGB derived buffer. -/
def origLAEx : Img :=
  { width := 1, height := 1, mode := .LA, px := fun _ _ => [200, 77] }

/-- A 1×1 RGB derived buffer. -/
def derRGBEx : Img :=
  { width := 1, height := 1, mode := .RGB, px := fun _ _ => [1, 2, 3] }

theorem derRGBEx_valid : derRGBEx.Valid := by
  intro x y hx hy
  refine ⟨rfl, ?_⟩
  intro v hv
  simp only [derRGBEx, List.mem_cons, List.not_mem_nil, or_false] at hv
  rcases hv with rfl | rfl | rfl <;> omega

/-- Witness for C7: the derived RGB buffer is promoted, its new alpha
band carries the original alpha 77, and band 0 still carries 1. -/
theorem c7_put_original_alpha_witness :
    ((put_original_alpha origLAEx derRGBEx).px 0 0).getD 3 0 = 77 ∧
    ((put_original_alpha origLAEx derRGBEx).px 0 0).getD 0 0 = 1 := by
  have h := (c7_put_original_alpha origLAEx derRGBEx derRGBEx_valid).2 1 rfl
  exact ⟨h.2.2.2.2.1 0 0 (by decide) (by decide),
    h.2.2.2.2.2 0 0 (by decide) (by decide) 0 (by decide) (by decide)⟩

/-! ## Claim C9: in-place mutation and object identity -/

/-- Claim C9: on a pair whose original has an alpha band,
`put_original_alpha` mutates the object behind the derived reference in
place via `putalpha`, leaves every other reference untouched, and
returns the very reference it was given (not a fresh object); the
mutated object is exactly the value `put_original_alpha` computes. -/
theorem c9_putalpha_in_place (h : Heap) (original new_image : RefId) (i : Nat)
    (halpha : (h original).mode.alphaIdx = some i) :
    (put_original_alpha_ref h original new_image).2 = new_image ∧
    (put_original_alpha_ref h original new_image).1 new_image
      = (h new_image).putalpha ((h original).band i) ∧
    (∀ r, r ≠ new_image → (put_original_alpha_ref h original new_image).1 r = h r) ∧
    (put_original_alpha_ref h original new_image).1 new_image
      = put_original_alpha (h original) (h new_image) := by
  simp only [put_original_alpha_ref, put_original_alpha, halpha]
  refine ⟨by trivial, ?_, ?_, ?_⟩
  · simp [heapUpdate]
  · intro r hr
    simp [heapUpdate, hr]
  · simp [heapUpdate]

/-- A two-object heap: reference 0 holds the LA original, reference 1
the RGB derived buffer. -/
def heapEx : Heap := fun r => if r = 0 then origLAEx else derRGBEx

/-- Witness for C9 on the concrete heap. -/
theorem c9_putalpha_in_place_witness :
    (put_original_alpha_ref heapEx 0 1).2 = 1 ∧
    (put_original_alpha_ref heapEx 0 1).1 2 = heapEx 2 := by
  have h := c9_putalpha_in_place heapEx 0 1 1 rfl
  exact ⟨h.1, h.2.2.1 2 (by decide)⟩

/-! ## The `Multiball` loop: shared lemmas -/

theorem Multiball.loop_nil (inst : String → Except PyErr (Img → Img))
    (coin : Nat → Nat) (k : Nat) (img : Img) :
    Multiball.loop inst coin k [] img = (.ok img, []) := by
  rw [Multiball.loop.eq_def]
  simp

theorem Multiball.loop_concat (inst : String → Except PyErr (Img → Img))
    (coin : Nat → Nat) (k : Nat) (l : List String) (a : String) (img : Img) :
    Multiball.loop inst coin k (l ++ [a]) img =
      match inst a with
      | .error e => (.error e, l)
      | .ok apply_fn =>
        Multiball.loop inst coin (k + 1) l
          (if coin k % 2 = 0 then apply_fn img else img) := by
  rw [Multiball.loop.eq_def]
  split
  · rename_i hnone
    rw [List.getLast?_concat] at hnone
    exact absurd hnone (by simp)
  · rename_i effect_name hsome
    rw [List.getLast?_concat] at hsome
    injection hsome with hsome
    subst hsome
    rw [List.dropLast_concat]

/-- When every name resolves, the popping loop computes exactly the
spec chain over the reversed list and drains the effect list. -/
theorem Multiball.loop_all_ok (inst : String → Except PyErr (Img → Img))
    (coin : Nat → Nat) (l : List String)
    (h : ∀ n ∈ l, ∃ f, inst n = .ok f) :
    ∀ k (img : Img), Multiball.loop inst coin k l img
      = (Multiball.specChain inst coin k l.reverse img, []) := by
  induction l using List.reverseRecOn with
  | nil =>
    intro k img
    rw [Multiball.loop_nil]
    rfl
  | append_singleton l2 a ih =>
    intro k img
    obtain ⟨f, hf⟩ := h a (by simp)
    rw [Multiball.loop_concat, hf]
    have hstep : Multiball.specChain inst coin k (l2 ++ [a]).reverse img
        = Multiball.specChain inst coin (k + 1) l2.reverse
            (if coin k % 2 = 0 then f img else img) := by
      simp [Multiball.specChain, hf]
    rw [hstep]
    exact ih (fun n hn => h n (by simp [hn])) (k + 1) _

/-- The spec chain preserves the mode when every applied sub-effect
does. -/
theorem Multiball.specChain_mode (inst : String → Except PyErr (Img → Img))
    (coin : Nat → Nat) (l : List String)
    (hm : ∀ n ∈ l, ∀ f, inst n = .ok f → ∀ i, (f i).mode = i.mode) :
    ∀ k (img out : Img),
      Multiball.specChain inst coin k l img = .ok out → out.mode = img.mode := by
  induction l with
  | nil =>
    intro k img out h
    simp only [Multiball.specChain, Except.ok.injEq] at h
    rw [← h]
  | cons n rest ih =>
    intro k img out h
    cases hi : inst n with
    | error e => simp [Multiball.specChain, hi] at h
    | ok f =>
      have h2 : Multiball.specChain inst coin (k + 1) rest
          (if coin k % 2 = 0 then f img else img) = .ok out := by
        simpa [Multiball.specChain, hi] using h
      have h3 := ih (fun m hm2 => hm m (by simp [hm2])) (k + 1) _ out h2
      rw [h3]
      by_cases hc : coin k % 2 = 0
      · simp [hc, hm n (by simp) f hi img]
      · simp [hc]

/-- When a popped name fails to instantiate, the loop raises that error
(every name popped before it resolving). -/
theorem Multiball.loop_raises (inst : String → Except PyErr (Img → Img))
    (coin : Nat → Nat) (l2 : List String) :
    ∀ k (l1 : List String) (n : String) (e : PyErr) (img : Img),
      inst n = .error e → (∀ m ∈ l2, ∃ f, inst m = .ok f) →
      (Multiball.loop inst coin k (l1 ++ n :: l2) img).1 = .error e := by
  induction l2 using List.reverseRecOn with
  | nil =>
    intro k l1 n e img hn _
    have hsplit : l1 ++ n :: ([] : List String) = l1 ++ [n] := rfl
    rw [hsplit, Multiball.loop_concat, hn]
  | append_singleton l2 a ih =>
    intro k l1 n e img hn h
    obtain ⟨f, hf⟩ := h a (by simp)
    have hsplit : l1 ++ n :: (l2 ++ [a]) = (l1 ++ n :: l2) ++ [a] := by simp
    rw [hsplit, Multiball.loop_concat, hf]
    exact ih (k + 1) l1 n e _ hn (fun m hm => h m (by simp [hm]))

/-! ## Claim C2: `Multiball` consumes its list in reverse order -/

/-- Claim C2: one `apply_effect` call on a `Multiball` whose names all
resolve processes each listed name exactly once, in reverse of the
original list order (popping from the end), with one coin flip per
name; it leaves the internal name list empty; and a second call on the
now-empty instance is a no-op returning the working image unchanged. -/
theorem c2_multiball_consumes (inst : String → Except PyErr (Img → Img))
    (coin : Nat → Nat) (effects : List String) (img : Img)
    (h : ∀ n ∈ effects, ∃ f, inst n = .ok f) :
    Multiball.applyEffect inst coin effects img
      = (Multiball.specChain inst coin 0 effects.reverse img, []) ∧
    Multiball.applyEffect inst coin [] img = (.ok img, []) :=
  ⟨Multiball.loop_all_ok inst coin effects h 0 img,
    Multiball.loop_nil inst coin 0 img⟩

/-- An instantiation map resolving every name to the identity effect. -/
def instEx : String → Except PyErr (Img → Img) := fun _ => .ok id

/-- A coin stream that always draws odd (no effect is applied). -/
def coinOdd : Nat → Nat := fun _ => 1

/-- Witness for C2 at a concrete list: with odd coins nothing applies,
the image passes through, and the name list is drained. -/
theorem c2_multiball_consumes_witness :
    Multiball.applyEffect instEx coinOdd ["greyscale", "blur"] (Image.new .RGB 1 1)
      = (.ok (Image.new .RGB 1 1), []) := by
  have h := (c2_multiball_consumes instEx coinOdd ["greyscale", "blur"]
    (Image.new .RGB 1 1) (fun n _ => ⟨id, rfl⟩)).1
  simpa [Multiball.specChain, instEx, coinOdd] using h

/-! ## Claim C10: lookup failures inside `Multiball.apply_effect` -/

/-- Claim C10: `all[effect_name]()` runs before the coin flip, so a
name absent from the registry raises `KeyError` at that name rather
than being skipped, and the name `multiball` itself raises `TypeError`
because `Multiball()` lacks its required `effects` argument; in both
cases `apply_effect` propagates the error as soon as the offending name
is popped (all names popped before it resolving). -/
theorem c10_multiball_lookup_error (convert : Mode → Img → Img)
    (gaussianBlur : ℚ → Img → Img) (srand : Nat → Nat) (sseq : List Nat)
    (coin : Nat → Nat) :
    registryInstantiate convert gaussianBlur srand sseq "multiball"
      = .error .typeError ∧
    (∀ n, n ∉ registeredNames →
      registryInstantiate convert gaussianBlur srand sseq n
        = .error (.keyError n)) ∧
    (∀ (l1 l2 : List String) (n : String) (e : PyErr) (img : Img),
      registryInstantiate convert gaussianBlur srand sseq n = .error e →
      (∀ m ∈ l2, ∃ f, registryInstantiate convert gaussianBlur srand sseq m = .ok f) →
      (Multiball.applyEffect (registryInstantiate convert gaussianBlur srand sseq)
        coin (l1 ++ n :: l2) img).1 = .error e) := by
  refine ⟨rfl, ?_, ?_⟩
  · intro n hn
    simp only [registeredNames, List.mem_cons, List.not_mem_nil, or_false,
      not_or] at hn
    obtain ⟨h1, h2, h3, h4, h5, h6, h7, h8, h9⟩ := hn
    simp [registryInstantiate, allRegistry, List.lookup,
      beq_eq_false_iff_ne.mpr h1, beq_eq_false_iff_ne.mpr h2,
      beq_eq_false_iff_ne.mpr h3, beq_eq_false_iff_ne.mpr h4,
      beq_eq_false_iff_ne.mpr h5, beq_eq_false_iff_ne.mpr h6,
      beq_eq_false_iff_ne.mpr h7, beq_eq_false_iff_ne.mpr h8,
      beq_eq_false_iff_ne.mpr h9]
  · intro l1 l2 n e img hn h
    exact Multiball.loop_raises _ coin l2 0 l1 n e img hn h

/-- Witness for C10: a one-element list with an unregistered name makes
`apply_effect` raise `KeyError` at it. -/
theorem c10_multiball_lookup_error_witness :
    (Multiball.applyEffect
      (registryInstantiate modelConvert modelBlur (fun _ => 1) [])
      coinOdd ["bogus"] (Image.new .RGB 1 1)).1 = .error (.keyError "bogus") := by
  have h := c10_multiball_lookup_error modelConvert modelBlur (fun _ => 1) [] coinOdd
  have hbad := h.2.1 "bogus" (by decide)
  have hmain := h.2.2 [] [] "bogus" (.keyError "bogus") (Image.new .RGB 1 1) hbad
    (by simp)
  simpa using hmain

/-! ## Claim C1: color-mode preservation -/

/-- A 2×1 RGB test image for the Shredder counterexample. -/
def shredderEx : Img :=
  { width := 2, height := 1, mode := .RGB, px := fun _ _ => [1, 2, 3] }

/-- Claim C1 as stated is false: `Shredder` — an effect other than
`Solarize` — pastes its strips into a fresh RGBA buffer, so an RGB
input with an even first draw comes back with mode RGBA, not RGB. -/
theorem c1_mode_counterexample :
    shredderEx.mode = Mode.RGB ∧
    (Shredder.applyEffect modelConvert 2 1 [0] shredderEx).mode = Mode.RGBA :=
  ⟨rfl, rfl⟩

theorem put_original_alpha_mode (original new_image : Img)
    (h : original.mode = new_image.mode) :
    (put_original_alpha original new_image).mode = new_image.mode := by
  cases halpha : original.mode.alphaIdx with
  | none => simp [put_original_alpha, halpha]
  | some i =>
    have halpha2 : new_image.mode.alphaIdx = some i := by
      rw [← h]
      exact halpha
    simp [put_original_alpha, halpha, Img.putalpha, halpha2]

theorem Shredder.pasteLoop_mode (convert : Mode → Img → Img) (image : Img)
    (sw : Nat) : ∀ (seq : List Nat) (i : Nat) (acc : Img),
    (Shredder.pasteLoop convert image sw i seq acc).mode = acc.mode := by
  intro seq
  induction seq with
  | nil => intro i acc; rfl
  | cons s rest ih =>
    intro i acc
    rw [Shredder.pasteLoop, ih]
    rfl

/-- Claim C1, amended: `Blackwhite`, `Greyscale`, `Desaturate`,
`Pixelate`, `Halftone` and `Blur` return a buffer of the input's mode;
`Shredder` does so only on an odd first draw (where it returns the
input itself) — on an even draw it returns an RGBA buffer whatever the
input mode; and `Multiball` preserves the mode when every sub-effect it
resolves does. -/
theorem c1_mode_preservation (convert : Mode → Img → Img)
    (gaussianBlur : ℚ → Img → Img) (inst : String → Except PyErr (Img → Img))
    (coin : Nat → Nat) (factor : ℚ) (reduction : Nat) (radius : ℚ)
    (r1 shreds : Nat) (sequence : List Nat) (img : Img)
    (hmode : ∀ m i, (convert m i).mode = m)
    (hblur : ∀ r i, (gaussianBlur r i).mode = i.mode) :
    (Blackwhite.applyEffect convert img).mode = img.mode ∧
    (Greyscale.applyEffect convert img).mode = img.mode ∧
    (Desaturate.applyEffect convert factor img).mode = img.mode ∧
    (Pixelate.applyEffect reduction img).mode = img.mode ∧
    (Halftone.applyEffect convert img).mode = img.mode ∧
    (Blur.applyEffect gaussianBlur radius img).mode = img.mode ∧
    (r1 % 2 = 1 → Shredder.applyEffect convert r1 shreds sequence img = img) ∧
    (r1 % 2 = 0 →
      (Shredder.applyEffect convert r1 shreds sequence img).mode = Mode.RGBA) ∧
    (∀ (l : List String) (out : Img) (rest : List String),
      (∀ n ∈ l, ∀ f, inst n = .ok f → ∀ i, (f i).mode = i.mode) →
      (∀ n ∈ l, ∃ f, inst n = .ok f) →
      Multiball.applyEffect inst coin l img = (.ok out, rest) →
      out.mode = img.mode) := by
  refine ⟨?_, hmode _ _, rfl, rfl, ?_, hblur _ _, ?_, ?_, ?_⟩
  · simp only [Blackwhite.applyEffect]
    rw [put_original_alpha_mode img _ (hmode _ _).symm]
    exact hmode _ _
  · simp only [Halftone.applyEffect]
    rw [put_original_alpha_mode img _ (hmode _ _).symm]
    exact hmode _ _
  · intro hodd
    have hne : ¬ r1 % 2 = 0 := by omega
    simp [Shredder.applyEffect, hne]
  · intro heven
    simp only [Shredder.applyEffect, heven, if_pos]
    rw [Shredder.pasteLoop_mode]
    rfl
  · intro l out rest hm hok happly
    simp only [Multiball.applyEffect] at happly
    rw [Multiball.loop_all_ok inst coin l hok 0 img] at happly
    have hchain : Multiball.specChain inst coin 0 l.reverse img = .ok out := by
      have := congrArg Prod.fst happly
      simpa using this
    exact Multiball.specChain_mode inst coin l.reverse
      (fun n hn => hm n (List.mem_reverse.mp hn)) 0 img out hchain

/-- Witness for the amended C1: Blackwhite keeps the RGB mode of the
concrete image, and Shredder with an odd first draw passes it through. -/
theorem c1_mode_preservation_witness :
    (Blackwhite.applyEffect modelConvert shredderEx).mode = Mode.RGB ∧
    Shredder.applyEffect modelConvert 3 1 [0] shredderEx = shredderEx := by
  have h := c1_mode_preservation modelConvert modelBlur instEx coinOdd (1 / 2) 5 5
    3 1 [0] shredderEx modelConvert_mode (fun r i => rfl)
  exact ⟨h.1, h.2.2.2.2.2.2.1 rfl⟩

/-! ## Claim C3: the `Shredder` algorithm -/

/-- The strip `Shredder` pastes for shuffled index `si`: the crop of
the input at `[sw*si, sw*si + sw) × [0, height)`, converted to the RGBA
destination mode when the modes differ (as `paste` does). -/
def Shredder.strip (convert : Mode → Img → Img) (image : Img) (sw si : Nat) : Img :=
  let region := image.crop (sw * si) 0 (sw * si + sw) image.height
  if region.mode = Mode.RGBA then region else convert Mode.RGBA region

theorem Shredder.strip_size (convert : Mode → Img → Img) (image : Img)
    (sw si : Nat)
    (hsize : ∀ m i, (convert m i).width = i.width ∧ (convert m i).height = i.height) :
    (Shredder.strip convert image sw si).width = sw ∧
    (Shredder.strip convert image sw si).height = image.height := by
  have hc : (image.crop (sw * si) 0 (sw * si + sw) image.height).width = sw :=
    Nat.add_sub_cancel_left (sw * si) sw
  have hch : (image.crop (sw * si) 0 (sw * si + sw) image.height).height
      = image.height := rfl
  unfold Shredder.strip
  dsimp only
  split
  · exact ⟨hc, hch⟩
  · exact ⟨by rw [(hsize _ _).1, hc], by rw [(hsize _ _).2, hch]⟩

theorem Shredder.pasteLoop_size (convert : Mode → Img → Img) (image : Img)
    (sw : Nat) : ∀ (seq : List Nat) (k : Nat) (acc : Img),
    (Shredder.pasteLoop convert image sw k seq acc).width = acc.width ∧
    (Shredder.pasteLoop convert image sw k seq acc).height = acc.height := by
  intro seq
  induction seq with
  | nil => intro k acc; exact ⟨rfl, rfl⟩
  | cons s rest ih =>
    intro k acc
    rw [Shredder.pasteLoop]
    exact ih (k + 1) _

/-- The heart of C3: after the paste loop, coordinates left of slot `k`
still show the accumulator, and the slot at offset `j` shows the strip
whose shuffled index sits at position `j` of the remaining sequence. -/
theorem Shredder.pasteLoop_px (convert : Mode → Img → Img) (image : Img)
    (sw : Nat)
    (hsize : ∀ m i, (convert m i).width = i.width ∧ (convert m i).height = i.height) :
    ∀ (seq : List Nat) (k : Nat) (acc : Img),
      acc.width = image.width → acc.height = image.height →
      acc.mode = Mode.RGBA →
      sw * (k + seq.length) ≤ image.width →
      (∀ x y, x < sw * k →
        (Shredder.pasteLoop convert image sw k seq acc).px x y = acc.px x y) ∧
      (∀ j si dx dy, seq[j]? = some si → dx < sw → dy < image.height →
        (Shredder.pasteLoop convert image sw k seq acc).px (sw * (k + j) + dx) dy
          = (Shredder.strip convert image sw si).px dx dy) := by
  intro seq
  induction seq with
  | nil =>
    intro k acc hw hh hm hbound
    refine ⟨fun x y hx => rfl, ?_⟩
    intro j si dx dy hj
    simp at hj
  | cons si0 rest ih =>
    intro k acc hw hh hm hbound
    have hstep : Shredder.pasteLoop convert image sw k (si0 :: rest) acc
        = Shredder.pasteLoop convert image sw (k + 1) rest
            (Img.pasteConv convert acc
              (image.crop (sw * si0) 0 (sw * si0 + sw) image.height) (sw * k) 0) := rfl
    have hps : Img.pasteConv convert acc
        (image.crop (sw * si0) 0 (sw * si0 + sw) image.height) (sw * k) 0
        = acc.paste (Shredder.strip convert image sw si0) (sw * k) 0 := by
      unfold Img.pasteConv Shredder.strip
      rw [hm]
    set acc2 := acc.paste (Shredder.strip convert image sw si0) (sw * k) 0 with hacc2
    have hw2 : acc2.width = image.width := hw
    have hh2 : acc2.height = image.height := hh
    have hm2 : acc2.mode = Mode.RGBA := hm
    have hbound2 : sw * ((k + 1) + rest.length) ≤ image.width := by
      have harith : (k + 1) + rest.length = k + (si0 :: rest).length := by
        simp [List.length_cons]
        omega
      rw [harith]
      exact hbound
    have hrec := ih (k + 1) acc2 hw2 hh2 hm2 hbound2
    have hstrip := Shredder.strip_size convert image sw si0 hsize
    constructor
    · intro x y hx
      rw [hstep, hps, hrec.1 x y (by
        have h1 : sw * k ≤ sw * (k + 1) := Nat.mul_le_mul_left _ (by omega)
        omega)]
      show (if sw * k ≤ x ∧ x < sw * k + (Shredder.strip convert image sw si0).width ∧
          0 ≤ y ∧ y < 0 + (Shredder.strip convert image sw si0).height ∧
          x < acc.width ∧ y < acc.height
        then (Shredder.strip convert image sw si0).px (x - sw * k) (y - 0)
        else acc.px x y) = acc.px x y
      rw [if_neg]
      intro hcond
      exact absurd hcond.1 (by omega)
    · intro j si dx dy hj hdx hdy
      cases j with
      | zero =>
        have hsi : si = si0 := by
          simp at hj
          omega
        rw [hsi]
        have hmul : sw * (k + 1) = sw * k + sw := by ring
        have hXlt : sw * k + dx < sw * (k + 1) := by omega
        have hXimg : sw * k + dx < image.width := by
          have h1 : sw * (k + 1) ≤ sw * (k + 1 + rest.length) :=
            Nat.mul_le_mul_left _ (by omega)
          have h2 : sw * (k + 1 + rest.length)
              = sw * (k + (si0 :: rest).length) := by
            simp only [List.length_cons]
            ring
          omega
        rw [hstep, hps]
        show (Shredder.pasteLoop convert image sw (k + 1) rest acc2).px
            (sw * k + dx) dy
          = (Shredder.strip convert image sw si0).px dx dy
        rw [hrec.1 (sw * k + dx) dy hXlt]
        show (if sw * k ≤ sw * k + dx ∧
            sw * k + dx < sw * k + (Shredder.strip convert image sw si0).width ∧
            0 ≤ dy ∧ dy < 0 + (Shredder.strip convert image sw si0).height ∧
            sw * k + dx < acc.width ∧ dy < acc.height
          then (Shredder.strip convert image sw si0).px (sw * k + dx - sw * k) (dy - 0)
          else acc.px (sw * k + dx) dy)
          = (Shredder.strip convert image sw si0).px dx dy
        rw [if_pos]
        · have e1 : sw * k + dx - sw * k = dx := by omega
          have e2 : dy - 0 = dy := by omega
          rw [e1, e2]
        · refine ⟨by omega, ?_, by omega, ?_, ?_, ?_⟩
          · rw [hstrip.1]
            omega
          · rw [hstrip.2]
            omega
          · rw [hw]
            exact hXimg
          · rw [hh]
            exact hdy
      | succ j2 =>
        have hj2 : rest[j2]? = some si := by simpa using hj
        have hmain := hrec.2 j2 si dx dy hj2 hdx hdy
        have hco : sw * (k + 1 + j2) + dx = sw * (k + (j2 + 1)) + dx := by ring
        rw [hco] at hmain
        rw [hstep, hps]
        exact hmain

/-- Claim C3: one `Shredder.apply_effect` call first draws `r1`; if odd
the input is returned unmodified; if even the buffer is cut into
`SHREDS` vertical strips of width `width / SHREDS` — the same
truncating integer division as Pixelate's reduction computation — and
the strip whose original index sits at slot `i` of the shuffled
permutation is pasted at x-offset `(width / SHREDS) * i` into a new
blank buffer of the input's size. -/
theorem c3_shredder_spec (convert : Mode → Img → Img) (r1 shreds : Nat)
    (sequence : List Nat) (img : Img)
    (hsize : ∀ m i, (convert m i).width = i.width ∧ (convert m i).height = i.height)
    (hperm : sequence.Perm (List.range shreds)) :
    (r1 % 2 = 1 → Shredder.applyEffect convert r1 shreds sequence img = img) ∧
    (∀ w h, Shredder.shredWidth w shreds = (Pixelate.tmpSize w h shreds).1) ∧
    (r1 % 2 = 0 →
      (Shredder.applyEffect convert r1 shreds sequence img).width = img.width ∧
      (Shredder.applyEffect convert r1 shreds sequence img).height = img.height ∧
      (∀ i si dx dy, sequence[i]? = some si →
        dx < Shredder.shredWidth img.width shreds → dy < img.height →
        (Shredder.applyEffect convert r1 shreds sequence img).px
            (Shredder.shredWidth img.width shreds * i + dx) dy
          = (Shredder.strip convert img
              (Shredder.shredWidth img.width shreds) si).px dx dy)) := by
  have hlen : sequence.length = shreds := by
    rw [hperm.length_eq, List.length_range]
  refine ⟨?_, fun w h => rfl, ?_⟩
  · intro hodd
    have hne : ¬ r1 % 2 = 0 := by omega
    simp [Shredder.applyEffect, hne]
  · intro heven
    have hbound : Shredder.shredWidth img.width shreds * (0 + sequence.length)
        ≤ img.width := by
      rw [Nat.zero_add, hlen]
      exact Nat.div_mul_le_self img.width shreds
    have hloop := Shredder.pasteLoop_px convert img
      (Shredder.shredWidth img.width shreds) hsize sequence 0
      (Image.new Mode.RGBA img.width img.height) rfl rfl rfl hbound
    have happ : Shredder.applyEffect convert r1 shreds sequence img
        = Shredder.pasteLoop convert img (Shredder.shredWidth img.width shreds) 0
            sequence (Image.new Mode.RGBA img.width img.height) := by
      simp [Shredder.applyEffect, heven]
    refine ⟨?_, ?_, ?_⟩
    · rw [happ]
      exact (Shredder.pasteLoop_size convert img _ sequence 0 _).1
    · rw [happ]
      exact (Shredder.pasteLoop_size convert img _ sequence 0 _).2
    · intro i si dx dy hi hdx hdy
      rw [happ]
      have := hloop.2 i si dx dy hi hdx hdy
      simpa [Nat.zero_add] using this

/-- A 4×1 RGB test image with one distinct pixel per column. -/
def shredEx4 : Img :=
  { width := 4, height := 1, mode := .RGB
    px := fun x _ => [x, 10 + x, 20 + x] }

/-- Witness for C3: with draws (2, 2) and shuffled sequence `[1, 0]`
the strip originally at index 1 lands in slot 0; and with an odd first
draw the image passes through. -/
theorem c3_shredder_spec_witness :
    (Shredder.applyEffect modelConvert 2 2 [1, 0] shredEx4).px 0 0
      = (Shredder.strip modelConvert shredEx4 2 1).px 0 0 ∧
    Shredder.applyEffect modelConvert 3 2 [1, 0] shredEx4 = shredEx4 := by
  have h := c3_shredder_spec modelConvert 2 2 [1, 0] shredEx4 modelConvert_size
    (by decide)
  have hodd := c3_shredder_spec modelConvert 3 2 [1, 0] shredEx4 modelConvert_size
    (by decide)
  refine ⟨?_, hodd.1 rfl⟩
  have := (h.2.2 rfl).2.2 0 1 0 0 rfl (by decide) (by decide)
  simpa using this

end PixelEffects
